import Mathlib

/-!
# Verification of the a2lfile tree writer (`src/writer.rs`)

This file gives a shallow embedding of the writer module: the `Writer` tree
data model, the whitespace algorithm `make_whitespace`, the comparator
`sort_function`, the recursive renderer `finish_internal` / `finish_group` /
`finish`, the string escaper `escape_string`, and the float formatters.

Modelling conventions:
* Rust `u32` values are embedded as `Nat`; where the code can overflow in
  release mode (the `current_line + 1` computations), the embedding takes the
  result modulo `2^32`, matching wrap-around semantics.
* `HashSet<String>` is embedded as a `List String` used only through
  membership and insertion, which is semantics-preserving.
* Rust's `String` ordering is lexicographic on UTF-8 bytes, which coincides
  with lexicographic order on Unicode code points; it is embedded as the
  three-way comparison `cmpStr` on the code points of the characters.
* `Vec::sort_by` is a stable sort; it is embedded as `List.insertionSort`
  (Mathlib's stable insertion sort) over the relation
  `sort_function a b ≠ .gt`.  Whenever the comparator satisfies the strict
  weak ordering contract on the elements being sorted, every stable sort
  produces the same list, so the embedding agrees with the Rust behaviour.
* The byte slice `text[1..]` panics on an empty string; `finish` is therefore
  embedded with result type `Option String` (`none` models the panic).  On a
  nonempty rendering the first character is always a one-byte ASCII separator
  character, so dropping one byte coincides with dropping one character.
-/

namespace A2L

/-- Line numbers are `u32` in the source; `u32Size = 2^32` is the wrap-around
modulus for release-mode arithmetic. -/
def u32Size : Nat := 4294967296

/-- `u32::MAX`, the sentinel line number used for synthesized keywords. -/
def u32Max : Nat := 4294967295

mutual
/-- `struct Writer { file: Option<String>, line: u32, items: Vec<WriterItem> }` -/
inductive Writer : Type where
  | mk (file : Option String) (line : Nat) (items : List WriterItem) : Writer

/-- `enum WriterItem { StaticItem(u32, String), TaggedGroup(Vec<(String, Writer, bool)>), Break }` -/
inductive WriterItem : Type where
  | staticItem (line : Nat) (text : String) : WriterItem
  | taggedGroup (group : List (String × Writer × Bool)) : WriterItem
  | brk : WriterItem
end

/-- Field accessor for `Writer.file`. -/
def Writer.file : Writer → Option String
  | ⟨f, _, _⟩ => f

/-- Field accessor for `Writer.line`. -/
def Writer.line : Writer → Nat
  | ⟨_, l, _⟩ => l

/-- Field accessor for `Writer.items`. -/
def Writer.items : Writer → List WriterItem
  | ⟨_, _, i⟩ => i

@[simp] theorem Writer.file_mk (f : Option String) (l : Nat) (i : List WriterItem) :
    (Writer.mk f l i).file = f := rfl

@[simp] theorem Writer.line_mk (f : Option String) (l : Nat) (i : List WriterItem) :
    (Writer.mk f l i).line = l := rfl

@[simp] theorem Writer.items_mk (f : Option String) (l : Nat) (i : List WriterItem) :
    (Writer.mk f l i).items = i := rfl

/-- `const INDENT_WIDTH: usize = 2;` -/
def INDENT_WIDTH : Nat := 2

/-- The 122-character constant of `make_whitespace`: two newlines followed by
120 spaces (the source writes the spaces as a literal; the comment there says
"must contain 120 spaces"). -/
def base_str : String := String.mk ('\n' :: '\n' :: List.replicate 120 ' ')

/-- `make_whitespace(current_line, item_line, indent, break_new, allow_empty_line)`.

Rust returns sub-slices of `base_str`; byte ranges `[1..k]` and `[..k]` are
embedded as character ranges, which coincide because the string is ASCII.
The `must_break` local is inlined into the first condition.  The comparison
`current_line + 1 == item_line` uses `u32` addition, hence the `% u32Size`. -/
def make_whitespace (current_line item_line : Nat) (indent : Nat)
    (break_new allow_empty_line : Bool) : String :=
  if current_line ≠ 0 ∧ current_line = item_line ∧
      ¬(break_new = true ∧ current_line = item_line ∧ current_line = u32Max) then
    " "
  else if (current_line + 1) % u32Size = item_line ∨
      (current_line = 0 ∧ item_line = 0) ∨ allow_empty_line = false then
    if indent < 120 / INDENT_WIDTH then
      String.mk ((base_str.data.drop 1).take (indent * INDENT_WIDTH + 1))
    else
      String.mk ((base_str.data.drop 1).take 121)
  else
    if indent < 120 / INDENT_WIDTH then
      String.mk (base_str.data.take (indent * INDENT_WIDTH + 2))
    else
      String.mk (base_str.data.take 122)

/-- Three-way lexicographic comparison of character lists by code point;
this is Rust's `Ord` for `String` (bytewise UTF-8 order equals code-point
order). -/
def cmpChars : List Char → List Char → Ordering
  | [], [] => .eq
  | [], _ :: _ => .lt
  | _ :: _, [] => .gt
  | a :: as, b :: bs => (cmp a.toNat b.toNat).then (cmpChars as bs)

/-- Rust's `String::cmp`. -/
def cmpStr (s t : String) : Ordering := cmpChars s.data t.data

/-- `Writer::sort_function`, the comparator passed to `sort_by`.
`cmp` is Mathlib's three-way comparison on `Nat`. -/
def Writer.sort_function (a b : String × Writer × Bool) : Ordering :=
  if a.1 = "ASAP2_VERSION" ∨ a.1 = "A2ML" then .lt
  else if b.1 = "ASAP2_VERSION" ∨ b.1 = "A2ML" then .gt
  else
    match a.2.1.file, b.2.1.file with
    | some incname_a, some incname_b => cmpStr incname_a incname_b
    | some _, none => .lt
    | none, some _ => .gt
    | none, none =>
      if a.2.1.line ≠ 0 ∧ b.2.1.line ≠ 0 then cmp a.2.1.line b.2.1.line
      else if a.2.1.line ≠ 0 ∧ b.2.1.line = 0 then .lt
      else if a.2.1.line = 0 ∧ b.2.1.line ≠ 0 then .gt
      else cmpStr a.1 b.1

/-- The "a sorts no later than b" relation induced by `sort_function`;
`Vec::sort_by` produces a list that is stably sorted with respect to it. -/
def sortLe (a b : String × Writer × Bool) : Prop :=
  Writer.sort_function a b ≠ .gt

instance : DecidableRel sortLe := fun a b =>
  inferInstanceAs (Decidable (Writer.sort_function a b ≠ .gt))

/-- `sizeOf` is invariant under `insertionSort`, which permutes its input. -/
theorem sizeOf_insertionSort (r : (String × Writer × Bool) → (String × Writer × Bool) → Prop)
    [DecidableRel r] (l : List (String × Writer × Bool)) :
    sizeOf (List.insertionSort r l) = sizeOf l :=
  (List.perm_insertionSort r l).sizeOf_eq_sizeOf

mutual
/-- `Writer::finish_internal(self, indent)`: recursively render one writer.
The loop over `self.items` with its `current_line` / `empty_block` /
`should_break` state is the recursive helper `finish_items`. -/
def Writer.finish_internal : Writer → Nat → Nat × String
  | ⟨_, line, items⟩, indent => Writer.finish_items line true false items indent
termination_by w _ => 2 * sizeOf w
decreasing_by all_goals simp_wf

/-- The body of `finish_internal`'s `for item in self.items` loop:
`current_line` is the line cursor, `empty_block` and `should_break` the two
flags; the accumulated output string is produced by appending each
iteration's emission in front of the recursive result. -/
def Writer.finish_items (current_line : Nat) (empty_block should_break : Bool)
    (items : List WriterItem) (indent : Nat) : Nat × String :=
  match items with
  | [] => (current_line, "")
  | .staticItem item_line text :: rest =>
      let head := make_whitespace current_line item_line indent should_break false ++ text
      let tail := Writer.finish_items item_line false false rest indent
      (tail.1, head ++ tail.2)
  | .brk :: rest =>
      Writer.finish_items current_line false true rest indent
  | .taggedGroup group :: rest =>
      let g := Writer.finish_group current_line (List.insertionSort sortLe group) indent empty_block
      let tail := Writer.finish_items g.1 false should_break rest indent
      (tail.1, g.2 ++ tail.2)
termination_by 2 * sizeOf items
decreasing_by all_goals simp_wf; all_goals simp only [sizeOf_insertionSort]; all_goals omega

/-- `Writer::finish_group(start_line, group, indent, empty_block)`; the caller
passes the group already sorted by `sort_function`.  `grouplen` is computed
once from the argument, and the `included_files` set starts empty. -/
def Writer.finish_group (start_line : Nat) (group : List (String × Writer × Bool))
    (indent : Nat) (empty_block : Bool) : Nat × String :=
  Writer.finish_group_items start_line group indent empty_block group.length []
termination_by 2 * sizeOf group + 1
decreasing_by all_goals simp_wf

/-- The body of `finish_group`'s `for (tag, item, is_block) in group` loop;
`included` is the `included_files` hash set. -/
def Writer.finish_group_items (current_line : Nat) (group : List (String × Writer × Bool))
    (indent : Nat) (empty_block : Bool) (grouplen : Nat) (included : List String) :
    Nat × String :=
  match group with
  | [] => (current_line, "")
  | (tag, item, is_block) :: rest =>
    match item.file with
    | none =>
        let sep := make_whitespace current_line item.line indent true is_block
        let newindent :=
          if empty_block = true ∧ current_line = item.line ∧ grouplen = 1 then indent
          else indent + 1
        let body := Writer.finish_internal item newindent
        let head := sep ++ (if is_block then "/begin " else "") ++ tag ++ body.2 ++
          (if is_block then
            make_whitespace body.1 ((body.1 + 1) % u32Size) indent false false ++ "/end " ++ tag
          else "")
        let line' := if is_block then (body.1 + 1) % u32Size else body.1
        let tail := Writer.finish_group_items line' rest indent empty_block grouplen included
        (tail.1, head ++ tail.2)
    | some incfile =>
        if incfile ∈ included then
          Writer.finish_group_items current_line rest indent empty_block grouplen included
        else
          let head := make_whitespace current_line ((current_line + 1) % u32Size) indent true true ++
            "/include \"" ++ incfile ++ "\""
          let tail := Writer.finish_group_items ((current_line + 1) % u32Size) rest indent
            empty_block grouplen (incfile :: included)
          (tail.1, head ++ tail.2)
termination_by 2 * sizeOf group
decreasing_by all_goals simp_wf; all_goals omega
end

/-- `Writer::finish(self)`: render at indent 0, then strip the first byte of
the output (`text[1..]`).  On an empty rendering the Rust slice panics, which
the embedding models as `none`; otherwise the first character is a one-byte
separator character, so stripping one byte is stripping one character. -/
def Writer.finish (w : Writer) : Option String :=
  match (Writer.finish_internal w 0).2.data with
  | [] => none
  | _ :: cs => some (String.mk cs)

/-- `Writer::add_fixed_item(&mut self, item, position)`: push a static item. -/
def Writer.add_fixed_item (w : Writer) (item : String) (position : Nat) : Writer :=
  ⟨w.file, w.line, w.items ++ [.staticItem position item]⟩

/-- `Writer::add_break_if_new_item(&mut self, position)`: push a `Break` iff
`position == 0 || position == u32::MAX`. -/
def Writer.add_break_if_new_item (w : Writer) (position : Nat) : Writer :=
  if position = 0 ∨ position = u32Max then ⟨w.file, w.line, w.items ++ [.brk]⟩
  else w

/-- The escaped-character predicate of `escape_string`'s closure:
`c == '\'' || c == '"' || c == '\\' || c == '\n' || c == '\t'`. -/
def escape_special (c : Char) : Bool :=
  c = '\'' || c = '"' || c = '\\' || c = '\n' || c = '\t'

/-- The character-by-character rebuilding loop of `escape_string`: push a
backslash in front of every special character, then the character itself. -/
def escape_rebuild : List Char → List Char
  | [] => []
  | c :: rest =>
      (if escape_special c then ['\\', c] else [c]) ++ escape_rebuild rest

/-- `escape_string(value)`: fast path returns the input unchanged when it
contains no special character, otherwise rebuild character by character. -/
def escape_string (value : String) : String :=
  if value.data.any escape_special then String.mk (escape_rebuild value.data)
  else value

/-- Result of the float formatters with the two dynamic branches kept
abstract: `Rust`'s `format!("{}", v)` and `format!("{:e}", v)` (shortest
round-trip decimal / scientific rendering) are not reproduced digit by
digit; the formatter's branch decision and the literal `"0"` are. -/
inductive FloatRepr where
  | lit (s : String)
  | scientific (v : ℚ)
  | plain (v : ℚ)
deriving DecidableEq

/-- The exact value of the `f32` literals `0.0001` / `-0.0001` in
`format_float`: `1e-4` is not representable as `f32`; with a 24-bit mantissa
it rounds to the nearest value `13743895 * 2^(-37) ≈ 9.9999997e-5`, which is
strictly *below* `1e-4` (the discarded fraction is `.3472`). -/
def f32_0_0001 : ℚ := 13743895 / 2 ^ 37

/-- `format_float(value: f32)`.  `f32` comparisons are exact comparisons of
the represented rationals, so the branch structure is embedded with each
constant replaced by the exact rational value of the `f32` literal:
`1e+10 = 9765625 * 2^10` is exactly representable and stays `10^10`, while
`0.0001` rounds to `f32_0_0001`; `value` ranges over the rationals
representable as `f32`. -/
def format_float (value : ℚ) : FloatRepr :=
  if value = 0 then .lit "0"
  else if value < -(10 ^ 10 : ℚ) ∨ (-f32_0_0001 < value ∧ value < f32_0_0001) ∨
      (10 ^ 10 : ℚ) < value then
    .scientific value
  else .plain value

/-- `format_double(value: f64)`, same branch structure as `format_float` but
with `f64` constants.  `1e+10` is again exact.  The `f64` literal `0.0001`
rounds *up*, to `7378697629483821 * 2^(-66)`, and no `f64` value lies
between `1e-4` and that constant, so on every representable `f64` input the
comparison against it coincides with comparison against the exact rational
`1/10000`, which is used here. -/
def format_double (value : ℚ) : FloatRepr :=
  if value = 0 then .lit "0"
  else if value < -(10 ^ 10 : ℚ) ∨ (-(1 / 10000 : ℚ) < value ∧ value < (1 / 10000 : ℚ)) ∨
      (10 ^ 10 : ℚ) < value then
    .scientific value
  else .plain value

/-! ## Helper lemmas -/

/-- Reassembling a string from its characters is the identity. -/
theorem String.mk_data (s : String) : String.mk s.data = s := rfl

/-- `String.append` acts as list append on the character data. -/
theorem String.data_app (s t : String) : (s ++ t).data = s.data ++ t.data := rfl

/-- The rebuilding loop leaves a string with no special characters unchanged. -/
theorem escape_rebuild_of_clean : ∀ l : List Char,
    (∀ c ∈ l, escape_special c = false) → escape_rebuild l = l
  | [], _ => rfl
  | c :: rest, h => by
      have hc := h c (List.mem_cons_self c rest)
      simp only [escape_rebuild, hc]
      simp [escape_rebuild_of_clean rest fun d hd => h d (List.mem_cons_of_mem c hd)]

/-! ## C9: `escape_string` is the identity on clean input and agrees with the
rebuilding path everywhere -/

/-- C9: for every string with none of `' " \ \n \t`, `escape_string` returns
its input unchanged; and on every input the returned string equals the result
of the character-by-character rebuilding path, so the fast path and the slow
path always produce identical output. -/
theorem escape_string_spec :
    (∀ x : String, (∀ c ∈ x.data, escape_special c = false) → escape_string x = x)
  ∧ (∀ x : String, escape_string x = String.mk (escape_rebuild x.data)) := by
  constructor
  · intro x h
    unfold escape_string
    rw [if_neg]
    simp only [List.any_eq_true, not_exists, not_and]
    intro c hc
    simp [h c hc]
  · intro x
    unfold escape_string
    split_ifs with h
    · rfl
    · simp only [List.any_eq_true, not_exists, not_and] at h
      rw [escape_rebuild_of_clean x.data, String.mk_data]
      intro c hc
      exact Bool.eq_false_iff.mpr (h c hc)

/-- Witness for C9 at `"abc"`. -/
theorem escape_string_spec_witness :
    (∀ c ∈ ("abc" : String).data, escape_special c = false) ∧
    escape_string "abc" = "abc" :=
  ⟨by decide, escape_string_spec.1 "abc" (by decide)⟩

/-! ## C10: `add_break_if_new_item` appends a break exactly for positions 0
and `u32::MAX` -/

/-- C10: `add_break_if_new_item position` appends a `Break` marker to the
item list iff `position = 0` or `position = u32::MAX`; for every other
position the writer is returned completely unchanged. -/
theorem add_break_if_new_item_spec (w : Writer) (position : Nat) :
    (position = 0 ∨ position = u32Max →
      Writer.add_break_if_new_item w position = ⟨w.file, w.line, w.items ++ [.brk]⟩)
  ∧ (¬(position = 0 ∨ position = u32Max) → Writer.add_break_if_new_item w position = w)
  ∧ ((Writer.add_break_if_new_item w position).items = w.items ++ [.brk] ↔
      (position = 0 ∨ position = u32Max)) := by
  unfold Writer.add_break_if_new_item
  split_ifs with h
  · exact ⟨fun _ => rfl, fun hn => absurd h hn, by simp [h]⟩
  · refine ⟨fun hp => absurd hp h, fun _ => rfl, ?_⟩
    simp [h]

/-- Witness for C10 at positions `0` (break appended) and `5` (no-op). -/
theorem add_break_if_new_item_spec_witness :
    ((0 : Nat) = 0 ∨ (0 : Nat) = u32Max) ∧
    Writer.add_break_if_new_item ⟨none, 7, []⟩ 0 = ⟨none, 7, [.brk]⟩ ∧
    ¬((5 : Nat) = 0 ∨ (5 : Nat) = u32Max) ∧
    Writer.add_break_if_new_item ⟨none, 7, []⟩ 5 = ⟨none, 7, []⟩ :=
  ⟨Or.inl rfl,
   (add_break_if_new_item_spec ⟨none, 7, []⟩ 0).1 (Or.inl rfl),
   by decide,
   (add_break_if_new_item_spec ⟨none, 7, []⟩ 5).2.1 (by decide)⟩

/-! ## C7: the three branches of `make_whitespace` and the 120-space clamp -/

/-- C7: `make_whitespace` returns a single space when both lines are non-zero
and equal and the must-break case (`break_new` with both lines at the
`u32::MAX` sentinel) does not apply; one newline plus `indent` levels of
2-column indentation when `item_line` is `current_line + 1` (in wrapping
`u32` arithmetic), or both lines are zero, or blank lines are not allowed;
otherwise two newlines plus indentation — and the indentation is clamped to
at most 120 spaces for every indent depth at or beyond `120 / INDENT_WIDTH`.
-/
theorem make_whitespace_spec (current_line item_line indent : Nat)
    (break_new allow_empty_line : Bool) :
    make_whitespace current_line item_line indent break_new allow_empty_line =
      if current_line ≠ 0 ∧ item_line ≠ 0 ∧ current_line = item_line ∧
          ¬(break_new = true ∧ current_line = u32Max ∧ item_line = u32Max) then " "
      else if (current_line + 1) % u32Size = item_line ∨
          (current_line = 0 ∧ item_line = 0) ∨ allow_empty_line = false then
        "\n" ++ String.mk (List.replicate (min (indent * INDENT_WIDTH) 120) ' ')
      else
        "\n\n" ++ String.mk (List.replicate (min (indent * INDENT_WIDTH) 120) ' ') := by
  have hdrop : base_str.data.drop 1 = '\n' :: List.replicate 120 ' ' := rfl
  have hdata : base_str.data = '\n' :: '\n' :: List.replicate 120 ' ' := rfl
  unfold make_whitespace
  by_cases h1 : current_line ≠ 0 ∧ current_line = item_line ∧
      ¬(break_new = true ∧ current_line = item_line ∧ current_line = u32Max)
  · have h1' : current_line ≠ 0 ∧ item_line ≠ 0 ∧ current_line = item_line ∧
        ¬(break_new = true ∧ current_line = u32Max ∧ item_line = u32Max) := by
      obtain ⟨a, b, c⟩ := h1
      subst b
      exact ⟨a, a, rfl, fun ⟨x, y, _⟩ => c ⟨x, rfl, y⟩⟩
    rw [if_pos h1, if_pos h1']
  · have h1' : ¬(current_line ≠ 0 ∧ item_line ≠ 0 ∧ current_line = item_line ∧
        ¬(break_new = true ∧ current_line = u32Max ∧ item_line = u32Max)) := by
      intro ⟨a, _, c, d⟩
      subst c
      exact h1 ⟨a, rfl, fun ⟨x, _, z⟩ => d ⟨x, z, z⟩⟩
    rw [if_neg h1, if_neg h1']
    have hindent : ∀ k : Nat, (List.replicate 120 ' ').take k =
        List.replicate (min k 120) ' ' := fun k => List.take_replicate ' ' k 120
    by_cases h2 : (current_line + 1) % u32Size = item_line ∨
        (current_line = 0 ∧ item_line = 0) ∨ allow_empty_line = false
    · rw [if_pos h2, if_pos h2]
      by_cases h3 : indent < 120 / INDENT_WIDTH
      · rw [if_pos h3, hdrop, List.take_succ_cons, hindent]
        rfl
      · rw [if_neg h3, hdrop, List.take_succ_cons, hindent]
        have : min (indent * INDENT_WIDTH) 120 = min 120 120 := by
          unfold INDENT_WIDTH at h3 ⊢
          omega
        rw [this]
        rfl
    · rw [if_neg h2, if_neg h2]
      by_cases h3 : indent < 120 / INDENT_WIDTH
      · rw [if_pos h3, hdata, List.take_succ_cons, List.take_succ_cons, hindent]
        rfl
      · rw [if_neg h3, hdata, List.take_succ_cons, List.take_succ_cons, hindent]
        have : min (indent * INDENT_WIDTH) 120 = min 120 120 := by
          unfold INDENT_WIDTH at h3 ⊢
          omega
        rw [this]
        rfl

/-! ## C8: the float/double formatter branches -/

/-- The three-way branch characterization shared by the two formatters, with
the small-magnitude constant `c` abstracted. -/
theorem float_branches_cases (c v : ℚ) (r : FloatRepr)
    (hr : r = if v = 0 then FloatRepr.lit "0"
      else if v < -(10 ^ 10 : ℚ) ∨ (-c < v ∧ v < c) ∨ (10 ^ 10 : ℚ) < v then
        FloatRepr.scientific v
      else FloatRepr.plain v) :
    (r = .lit "0" ↔ v = 0)
  ∧ (r = .scientific v ↔ v ≠ 0 ∧ (|v| < c ∨ (10 ^ 10 : ℚ) < |v|))
  ∧ (r = .plain v ↔ v ≠ 0 ∧ c ≤ |v| ∧ |v| ≤ 10 ^ 10) := by
  subst hr
  split_ifs with h1 h2
  · subst h1
    exact ⟨by simp, by simp, by simp⟩
  · refine ⟨by simp [h1], ?_, ?_⟩
    · refine ⟨fun _ => ⟨h1, ?_⟩, fun _ => rfl⟩
      rcases h2 with h | ⟨ha, hb⟩ | h
      · exact Or.inr (lt_abs.mpr (Or.inr (by linarith)))
      · exact Or.inl (abs_lt.mpr ⟨by linarith, hb⟩)
      · exact Or.inr (lt_abs.mpr (Or.inl h))
    · constructor
      · intro heq
        exact absurd heq (by simp)
      · rintro ⟨-, hge, hle⟩
        exfalso
        rcases h2 with h | ⟨ha, hb⟩ | h
        · have := abs_le.mp hle
          linarith [this.1]
        · have : |v| < c := abs_lt.mpr ⟨ha, hb⟩
          linarith
        · have := abs_le.mp hle
          linarith [this.2]
  · push_neg at h2
    obtain ⟨hlo, hmid, hhi⟩ := h2
    refine ⟨by simp [h1], ?_, ?_⟩
    · constructor
      · intro heq
        exact absurd heq (by simp)
      · rintro ⟨-, hd⟩
        exfalso
        rcases hd with hlt | hgt
        · obtain ⟨ha, hb⟩ := abs_lt.mp hlt
          have := hmid ha
          linarith
        · rcases lt_abs.mp hgt with h | h
          · linarith
          · linarith
    · refine ⟨fun _ => ⟨h1, ?_, abs_le.mpr ⟨hlo, hhi⟩⟩, fun _ => rfl⟩
      by_cases hv : -c < v
      · exact le_abs.mpr (Or.inl (hmid hv))
      · push_neg at hv
        exact le_abs.mpr (Or.inr (by linarith))

/-- C8 (amended): both formatters return the literal `"0"` exactly on zero.
`format_float` takes the scientific-notation branch exactly when the value
is non-zero with magnitude strictly below the `f32` constant
`13743895 * 2^(-37)` (the rounding of the literal `0.0001`, itself strictly
below `1e-4`) or strictly above `1e10`, and the plain-decimal branch
otherwise — so both `1e10` and the `f32` value `0.0001f32` render as plain
decimal.  `format_double`'s boundary constant coincides with the exact
`1e-4` on representable `f64` inputs: scientific exactly when non-zero with
magnitude strictly below `1e-4` or strictly above `1e10`, plain otherwise. -/
theorem format_float_spec (v : ℚ) :
    ((format_float v = .lit "0" ↔ v = 0)
  ∧ (format_float v = .scientific v ↔ v ≠ 0 ∧ (|v| < f32_0_0001 ∨ (10 ^ 10 : ℚ) < |v|))
  ∧ (format_float v = .plain v ↔ v ≠ 0 ∧ f32_0_0001 ≤ |v| ∧ |v| ≤ 10 ^ 10))
  ∧ ((format_double v = .lit "0" ↔ v = 0)
  ∧ (format_double v = .scientific v ↔ v ≠ 0 ∧ (|v| < 1 / 10000 ∨ (10 ^ 10 : ℚ) < |v|))
  ∧ (format_double v = .plain v ↔ v ≠ 0 ∧ (1 / 10000 : ℚ) ≤ |v| ∧ |v| ≤ 10 ^ 10)) :=
  ⟨float_branches_cases f32_0_0001 v (format_float v) rfl,
   float_branches_cases (1 / 10000) v (format_double v) rfl⟩

/-! ## Properties of the string comparator -/

/-- The empty list never compares greater. -/
theorem cmpChars_nil_left : ∀ l : List Char, cmpChars [] l ≠ .gt
  | [] => by simp [cmpChars]
  | _ :: _ => by simp [cmpChars]

/-- `cmpChars` is antisymmetric in the `Ordering.swap` sense. -/
theorem cmpChars_swap : ∀ l₁ l₂ : List Char, (cmpChars l₁ l₂).swap = cmpChars l₂ l₁
  | [], [] => rfl
  | [], _ :: _ => rfl
  | _ :: _, [] => rfl
  | a :: as, b :: bs => by
      simp only [cmpChars]
      cases hx : cmp a.toNat b.toNat with
      | lt =>
          rw [← cmp_swap a.toNat b.toNat, hx]
          rfl
      | gt =>
          rw [← cmp_swap a.toNat b.toNat, hx]
          rfl
      | eq =>
          rw [← cmp_swap a.toNat b.toNat, hx]
          simpa [Ordering.then] using cmpChars_swap as bs

/-- `cmpChars` is transitive in the "compares no later" sense. -/
theorem cmpChars_le_trans : ∀ l₁ l₂ l₃ : List Char,
    cmpChars l₁ l₂ ≠ .gt → cmpChars l₂ l₃ ≠ .gt → cmpChars l₁ l₃ ≠ .gt
  | [], _, l₃, _, _ => cmpChars_nil_left l₃
  | _ :: _, [], _, h₁, _ => absurd rfl h₁
  | _ :: _, _ :: _, [], _, h₂ => absurd rfl h₂
  | a :: as, b :: bs, c :: cs, h₁, h₂ => by
      simp only [cmpChars] at h₁ h₂ ⊢
      cases hx : cmp a.toNat b.toNat with
      | gt => rw [hx] at h₁; exact absurd rfl h₁
      | lt =>
          have hab : a.toNat < b.toNat := (cmp_eq_lt_iff _ _).mp hx
          cases hy : cmp b.toNat c.toNat with
          | gt => rw [hy] at h₂; exact absurd rfl h₂
          | lt =>
              have hbc : b.toNat < c.toNat := (cmp_eq_lt_iff _ _).mp hy
              have : cmp a.toNat c.toNat = .lt := (cmp_eq_lt_iff _ _).mpr (hab.trans hbc)
              rw [this]
              simp [Ordering.then]
          | eq =>
              have hbc : b.toNat = c.toNat := (cmp_eq_eq_iff _ _).mp hy
              have : cmp a.toNat c.toNat = .lt := (cmp_eq_lt_iff _ _).mpr (hbc ▸ hab)
              rw [this]
              simp [Ordering.then]
      | eq =>
          have hab : a.toNat = b.toNat := (cmp_eq_eq_iff _ _).mp hx
          rw [hx] at h₁
          simp only [Ordering.then] at h₁
          cases hy : cmp b.toNat c.toNat with
          | gt => rw [hy] at h₂; exact absurd rfl h₂
          | lt =>
              have hbc : b.toNat < c.toNat := (cmp_eq_lt_iff _ _).mp hy
              have : cmp a.toNat c.toNat = .lt := (cmp_eq_lt_iff _ _).mpr (hab ▸ hbc)
              rw [this]
              simp [Ordering.then]
          | eq =>
              have hbc : b.toNat = c.toNat := (cmp_eq_eq_iff _ _).mp hy
              rw [hy] at h₂
              simp only [Ordering.then] at h₂
              have : cmp a.toNat c.toNat = .eq := (cmp_eq_eq_iff _ _).mpr (hab.trans hbc)
              rw [this]
              simpa [Ordering.then] using cmpChars_le_trans as bs cs h₁ h₂

/-- `cmpStr` version of `cmpChars_swap`. -/
theorem cmpStr_swap (s t : String) : (cmpStr s t).swap = cmpStr t s :=
  cmpChars_swap s.data t.data

/-- `cmpStr` version of `cmpChars_le_trans`. -/
theorem cmpStr_le_trans {s t u : String} (h₁ : cmpStr s t ≠ .gt) (h₂ : cmpStr t u ≠ .gt) :
    cmpStr s u ≠ .gt :=
  cmpChars_le_trans s.data t.data u.data h₁ h₂

/-! ## C3: properties of `sort_function` -/

/-- The two distinguished tags that are hard-coded to sort first. -/
def distTag (t : String) : Prop := t = "ASAP2_VERSION" ∨ t = "A2ML"

instance : DecidablePred distTag := fun t =>
  inferInstanceAs (Decidable (t = "ASAP2_VERSION" ∨ t = "A2ML"))

/-- Unfolding of `sort_function` when the first tag is distinguished. -/
theorem sort_function_of_dist_left (a b : String × Writer × Bool)
    (h : a.1 = "ASAP2_VERSION" ∨ a.1 = "A2ML") :
    Writer.sort_function a b = .lt := by
  unfold Writer.sort_function
  rw [if_pos h]

/-- Unfolding of `sort_function` when only the second tag is distinguished. -/
theorem sort_function_of_dist_right (a b : String × Writer × Bool)
    (hna : ¬(a.1 = "ASAP2_VERSION" ∨ a.1 = "A2ML"))
    (h : b.1 = "ASAP2_VERSION" ∨ b.1 = "A2ML") : Writer.sort_function a b = .gt := by
  unfold Writer.sort_function
  rw [if_neg hna, if_pos h]

/-- Unfolding of `sort_function` when neither tag is distinguished. -/
theorem sort_function_of_not_dist (a b : String × Writer × Bool)
    (hna : ¬(a.1 = "ASAP2_VERSION" ∨ a.1 = "A2ML"))
    (hnb : ¬(b.1 = "ASAP2_VERSION" ∨ b.1 = "A2ML")) :
    Writer.sort_function a b =
      match a.2.1.file, b.2.1.file with
      | some incname_a, some incname_b => cmpStr incname_a incname_b
      | some _, none => .lt
      | none, some _ => .gt
      | none, none =>
        if a.2.1.line ≠ 0 ∧ b.2.1.line ≠ 0 then cmp a.2.1.line b.2.1.line
        else if a.2.1.line ≠ 0 ∧ b.2.1.line = 0 then .lt
        else if a.2.1.line = 0 ∧ b.2.1.line ≠ 0 then .gt
        else cmpStr a.1 b.1 := by
  unfold Writer.sort_function
  rw [if_neg hna, if_neg hnb]

/-- The comparator reverses under argument swap whenever at most one operand
has a distinguished tag. -/
theorem sort_function_swap : ∀ a b : String × Writer × Bool,
    ¬(distTag a.1 ∧ distTag b.1) →
    (Writer.sort_function a b).swap = Writer.sort_function b a := by
  rintro ⟨ta, ⟨fa, la, wa⟩, xa⟩ ⟨tb, ⟨fb, lb, wb⟩, xb⟩ hnd
  simp only [distTag] at hnd
  by_cases hda : ta = "ASAP2_VERSION" ∨ ta = "A2ML" <;>
    by_cases hdb : tb = "ASAP2_VERSION" ∨ tb = "A2ML"
  · exact absurd ⟨hda, hdb⟩ hnd
  · rw [sort_function_of_dist_left _ _ hda, sort_function_of_dist_right _ _ hdb hda]
    rfl
  · rw [sort_function_of_dist_right _ _ hda hdb, sort_function_of_dist_left _ _ hdb]
    rfl
  · rw [sort_function_of_not_dist _ _ hda hdb, sort_function_of_not_dist _ _ hdb hda]
    rcases fa with _ | fa <;> rcases fb with _ | fb <;>
      simp only [Writer.file_mk, Writer.line_mk]
    · split_ifs <;>
        first
          | exact cmp_swap la lb
          | exact cmpStr_swap ta tb
          | rfl
          | (exfalso; omega)
    · rfl
    · rfl
    · exact cmpStr_swap fa fb

/-- The "sorts no later" relation is transitive. -/
theorem sortLe_trans : ∀ a b c : String × Writer × Bool,
    sortLe a b → sortLe b c → sortLe a c := by
  rintro ⟨ta, ⟨fa, la, wa⟩, xa⟩ ⟨tb, ⟨fb, lb, wb⟩, xb⟩ ⟨tc, ⟨fc, lc, wc⟩, xc⟩ hab hbc
  unfold sortLe at hab hbc ⊢
  by_cases hda : ta = "ASAP2_VERSION" ∨ ta = "A2ML"
  · rw [sort_function_of_dist_left _ _ hda]
    simp
  · by_cases hdb : tb = "ASAP2_VERSION" ∨ tb = "A2ML"
    · rw [sort_function_of_dist_right _ _ hda hdb] at hab
      exact absurd rfl hab
    by_cases hdc : tc = "ASAP2_VERSION" ∨ tc = "A2ML"
    · rw [sort_function_of_dist_right _ _ hdb hdc] at hbc
      exact absurd rfl hbc
    rw [sort_function_of_not_dist _ _ hda hdb] at hab
    rw [sort_function_of_not_dist _ _ hdb hdc] at hbc
    rw [sort_function_of_not_dist _ _ hda hdc]
    rcases fa with _ | fa <;> rcases fb with _ | fb <;> rcases fc with _ | fc <;>
      simp only [Writer.file_mk, Writer.line_mk] at hab hbc ⊢
    · -- no file anywhere: line rules, then tag order
      by_cases ha0 : la = 0 <;> by_cases hb0 : lb = 0 <;> by_cases hc0 : lc = 0 <;>
        simp_all
      · exact cmpStr_le_trans hab hbc
      · omega
    · exact absurd rfl hbc
    · exact absurd rfl hab
    · exact absurd rfl hab
    · simp
    · exact absurd rfl hbc
    · simp
    · exact cmpStr_le_trans hab hbc

/-- The "sorts no later" relation is total. -/
theorem sortLe_total : ∀ a b : String × Writer × Bool, sortLe a b ∨ sortLe b a := by
  intro a b
  by_cases hda : a.1 = "ASAP2_VERSION" ∨ a.1 = "A2ML"
  · left
    unfold sortLe
    rw [sort_function_of_dist_left _ _ hda]
    simp
  · by_cases hdb : b.1 = "ASAP2_VERSION" ∨ b.1 = "A2ML"
    · right
      unfold sortLe
      rw [sort_function_of_dist_left _ _ hdb]
      simp
    · by_cases h : Writer.sort_function a b = .gt
      · right
        unfold sortLe
        rw [← sort_function_swap a b fun hd => hda hd.1, h]
        decide
      · exact Or.inl h

instance : IsTrans (String × Writer × Bool) sortLe := ⟨sortLe_trans⟩

instance : IsTotal (String × Writer × Bool) sortLe := ⟨sortLe_total⟩

/-- C3 (amended): `sort_function` is deterministic and, as long as at most one
of the two operands carries a distinguished tag, comparing `(a, b)` gives the
exact reverse of comparing `(b, a)`; the induced "sorts no later" relation is
transitive on all inputs; and the two distinguished tags `ASAP2_VERSION` and
`A2ML` always sort strictly before every other tag. -/
theorem sort_function_spec :
    (∀ a b : String × Writer × Bool, ¬(distTag a.1 ∧ distTag b.1) →
      (Writer.sort_function a b).swap = Writer.sort_function b a)
  ∧ (∀ a b c : String × Writer × Bool, sortLe a b → sortLe b c → sortLe a c)
  ∧ (∀ a b : String × Writer × Bool, distTag a.1 → ¬distTag b.1 →
      Writer.sort_function a b = .lt ∧ Writer.sort_function b a = .gt) :=
  ⟨sort_function_swap, sortLe_trans, fun a b ha hb => by
    simp only [distTag] at ha hb
    exact ⟨sort_function_of_dist_left a b ha, sort_function_of_dist_right b a hb ha⟩⟩

/-- Witness for C3 on concrete children. -/
theorem sort_function_spec_witness :
    (¬(distTag "MEASUREMENT" ∧ distTag "CHARACTERISTIC") ∧
      (Writer.sort_function ("MEASUREMENT", Writer.mk none 3 [], true)
          ("CHARACTERISTIC", Writer.mk none 5 [], false)).swap =
        Writer.sort_function ("CHARACTERISTIC", Writer.mk none 5 [], false)
          ("MEASUREMENT", Writer.mk none 3 [], true))
  ∧ (sortLe ("MEASUREMENT", Writer.mk none 3 [], true)
        ("CHARACTERISTIC", Writer.mk none 5 [], false) ∧
      sortLe ("CHARACTERISTIC", Writer.mk none 5 [], false)
        ("MOD_PAR", Writer.mk none 7 [], true) ∧
      sortLe ("MEASUREMENT", Writer.mk none 3 [], true)
        ("MOD_PAR", Writer.mk none 7 [], true))
  ∧ (distTag "ASAP2_VERSION" ∧ ¬distTag "MEASUREMENT" ∧
      Writer.sort_function ("ASAP2_VERSION", Writer.mk none 9 [], true)
        ("MEASUREMENT", Writer.mk none 3 [], true) = .lt ∧
      Writer.sort_function ("MEASUREMENT", Writer.mk none 3 [], true)
        ("ASAP2_VERSION", Writer.mk none 9 [], true) = .gt) :=
  ⟨⟨by decide, sort_function_spec.1 _ _ (by decide)⟩,
   ⟨by decide, by decide,
    sort_function_spec.2.1 ("MEASUREMENT", Writer.mk none 3 [], true)
      ("CHARACTERISTIC", Writer.mk none 5 [], false)
      ("MOD_PAR", Writer.mk none 7 [], true) (by decide) (by decide)⟩,
   ⟨by decide, by decide,
    sort_function_spec.2.2 _ _ (by decide) (by decide)⟩⟩

/-- C3 counterexample: for two children that both carry distinguished tags the
comparator returns `.lt` in both argument orders, so comparing `(a, b)` is not
the exact reverse of comparing `(b, a)`. -/
theorem sort_function_cex :
    Writer.sort_function ("ASAP2_VERSION", Writer.mk none 1 [], true)
        ("A2ML", Writer.mk none 2 [], true) = .lt ∧
    Writer.sort_function ("A2ML", Writer.mk none 2 [], true)
        ("ASAP2_VERSION", Writer.mk none 1 [], true) = .lt ∧
    (Writer.sort_function ("ASAP2_VERSION", Writer.mk none 1 [], true)
        ("A2ML", Writer.mk none 2 [], true)).swap ≠
      Writer.sort_function ("A2ML", Writer.mk none 2 [], true)
        ("ASAP2_VERSION", Writer.mk none 1 [], true) := by
  decide

/-- C8 counterexample, refuting the claim at both boundaries.  `1e10` is
exactly representable as `f32`/`f64`; the claim demands scientific notation
for magnitudes at or above `1e10`, but the code's comparison `1e10 < value`
is strict, so the value `1e10` itself takes the plain-decimal branch.  And
the `f32` value `0.0001f32 = 13743895 * 2^(-37)` has magnitude strictly
below `1e-4`, so the claim demands scientific notation, but the code's
comparison `value < 0.0001` against that same constant is strict, so the
value takes the plain-decimal branch (Rust prints `"0.0001"`). -/
theorem format_float_cex :
    ((10 ^ 10 : ℚ) ≠ 0 ∧ (10 ^ 10 : ℚ) ≤ |(10 ^ 10 : ℚ)| ∧
     format_float (10 ^ 10 : ℚ) ≠ .scientific (10 ^ 10 : ℚ) ∧
     format_float (10 ^ 10 : ℚ) = .plain (10 ^ 10 : ℚ))
  ∧ ((13743895 / 2 ^ 37 : ℚ) ≠ 0 ∧ |(13743895 / 2 ^ 37 : ℚ)| < 1 / 10000 ∧
     format_float (13743895 / 2 ^ 37 : ℚ) ≠ .scientific (13743895 / 2 ^ 37 : ℚ) ∧
     format_float (13743895 / 2 ^ 37 : ℚ) = .plain (13743895 / 2 ^ 37 : ℚ)) := by
  have h1 : format_float (10 ^ 10 : ℚ) = .plain (10 ^ 10 : ℚ) := by
    norm_num [format_float, f32_0_0001]
  have h2 : format_float (13743895 / 2 ^ 37 : ℚ) = .plain (13743895 / 2 ^ 37 : ℚ) := by
    norm_num [format_float, f32_0_0001]
  refine ⟨⟨by norm_num, by norm_num [abs_of_nonneg], ?_, h1⟩,
    ⟨by norm_num, by norm_num [abs_of_nonneg], ?_, h2⟩⟩
  · rw [h1]
    simp
  · rw [h2]
    simp

/-! ## C2: order of the non-zero line numbers after sorting -/

/-- C2 (amended): within a group containing at most one child with a
distinguished tag (so that the comparator satisfies the strict-weak-order
contract and the stable sort is canonical), after sorting, the children with
`originFile = None`, a non-distinguished tag and a non-zero line number
appear in non-decreasing order of line number. -/
theorem sorted_lines_spec (g : List (String × Writer × Bool))
    (_hone : (g.filter fun x => decide (distTag x.1)).length ≤ 1) :
    List.Sorted (· ≤ ·)
      (((List.insertionSort sortLe g).filter fun x =>
          !decide (distTag x.1) && x.2.1.file.isNone && (x.2.1.line != 0)).map
        fun x => x.2.1.line) := by
  have hs : List.Pairwise sortLe (List.insertionSort sortLe g) :=
    List.sorted_insertionSort sortLe g
  have hp : List.Pairwise sortLe ((List.insertionSort sortLe g).filter
      fun x => !decide (distTag x.1) && x.2.1.file.isNone && (x.2.1.line != 0)) :=
    List.Pairwise.sublist (List.filter_sublist _) hs
  rw [List.Sorted, List.pairwise_map]
  refine hp.imp_of_mem ?_
  intro a b ha hb hr
  obtain ⟨-, hpa⟩ := List.mem_filter.mp ha
  obtain ⟨-, hpb⟩ := List.mem_filter.mp hb
  simp only [Bool.and_eq_true, Bool.not_eq_true', decide_eq_false_iff_not,
    Option.isNone_iff_eq_none, bne_iff_ne, ne_eq] at hpa hpb
  obtain ⟨⟨hda, hfa⟩, hla⟩ := hpa
  obtain ⟨⟨hdb, hfb⟩, hlb⟩ := hpb
  unfold sortLe at hr
  rw [sort_function_of_not_dist _ _ hda hdb] at hr
  rw [hfa, hfb] at hr
  simp only [] at hr
  rw [if_pos ⟨hla, hlb⟩] at hr
  have := (cmp_eq_gt_iff a.2.1.line b.2.1.line).not.mp hr
  omega

/-- Witness for C2 on a concrete group. -/
theorem sorted_lines_spec_witness :
    (([("B", Writer.mk none 2 [], true), ("A", Writer.mk none 1 [], false)].filter
        fun x => decide (distTag x.1)).length ≤ 1) ∧
    List.Sorted (· ≤ ·)
      (((List.insertionSort sortLe
          [("B", Writer.mk none 2 [], true), ("A", Writer.mk none 1 [], false)]).filter
            fun x =>
          !decide (distTag x.1) && x.2.1.file.isNone && (x.2.1.line != 0)).map
        fun x => x.2.1.line) :=
  ⟨by decide, sorted_lines_spec _ (by decide)⟩

/-- C2 counterexample: in a group containing `ASAP2_VERSION` at line 5 and an
ordinary child at line 1, the sort puts the distinguished tag first, so the
non-zero line numbers 5, 1 are not in non-decreasing order. -/
theorem sorted_lines_cex :
    ¬ List.Sorted (· ≤ ·)
      (((List.insertionSort sortLe
          [("MOD_PAR", Writer.mk none 1 [], true),
           ("ASAP2_VERSION", Writer.mk none 5 [], true)]).filter
            fun x => x.2.1.line != 0).map fun x => x.2.1.line) := by
  decide

/-! ## C4: which trees render without failure -/

/-- Every separator produced by `make_whitespace` is nonempty. -/
theorem make_whitespace_ne_nil (cl il ind : Nat) (bn ab : Bool) :
    (make_whitespace cl il ind bn ab).data ≠ [] := by
  have hlen : base_str.data.length = 122 := by
    simp [base_str]
  unfold make_whitespace
  split_ifs <;>
    first
      | decide
      | (refine List.length_pos.mp ?_
         simp only [List.length_take, List.length_drop, hlen]
         omega)

/-- A list whose head part is nonempty is nonempty. -/
theorem append_ne_nil_left {l₁ l₂ : List Char} (h : l₁ ≠ []) : l₁ ++ l₂ ≠ [] := by
  cases l₁ with
  | nil => exact absurd rfl h
  | cons a as => simp

/-- Rendering a group with at least one child (and nothing recorded as
included yet) always emits at least one character. -/
theorem finish_group_items_cons_ne_nil (cl : Nat) (t : String) (fo : Option String)
    (wl : Nat) (wi : List WriterItem) (b : Bool)
    (rest : List (String × Writer × Bool)) (ind : Nat) (eb : Bool) (gl : Nat) :
    (Writer.finish_group_items cl ((t, ⟨fo, wl, wi⟩, b) :: rest) ind eb gl []).2.data ≠ [] := by
  cases fo with
  | none =>
      rw [Writer.finish_group_items]
      simp only [Writer.file_mk, Writer.line_mk, String.data_app]
      exact append_ne_nil_left (append_ne_nil_left (append_ne_nil_left (append_ne_nil_left
        (append_ne_nil_left (make_whitespace_ne_nil _ _ _ _ _)))))
  | some f =>
      rw [Writer.finish_group_items]
      simp only [Writer.file_mk]
      rw [if_neg (List.not_mem_nil f)]
      simp only [String.data_app]
      exact append_ne_nil_left (append_ne_nil_left (append_ne_nil_left
        (append_ne_nil_left (make_whitespace_ne_nil _ _ _ _ _))))

/-- Rendering an item list that contains a static item or a nonempty group
emits at least one character. -/
theorem finish_items_ne_nil (items : List WriterItem) :
    ∀ (cl : Nat) (eb sb : Bool) (ind : Nat),
    (∃ it ∈ items, (∃ l t, it = WriterItem.staticItem l t) ∨
      ∃ g, it = WriterItem.taggedGroup g ∧ g ≠ []) →
    (Writer.finish_items cl eb sb items ind).2.data ≠ [] := by
  induction items with
  | nil =>
      rintro cl eb sb ind ⟨it, hmem, -⟩
      exact absurd hmem (List.not_mem_nil it)
  | cons it rest ih =>
      rintro cl eb sb ind ⟨wit, hmem, hw⟩
      cases it with
      | staticItem l t =>
          rw [Writer.finish_items]
          simp only [String.data_app]
          exact append_ne_nil_left (append_ne_nil_left (make_whitespace_ne_nil _ _ _ _ _))
      | brk =>
          rw [Writer.finish_items]
          rcases List.mem_cons.mp hmem with rfl | hmem'
          · rcases hw with ⟨l, t, h⟩ | ⟨g, h, -⟩ <;> exact absurd h (by simp)
          · exact ih cl false true ind ⟨wit, hmem', hw⟩
      | taggedGroup g =>
          rw [Writer.finish_items]
          cases hg : List.insertionSort sortLe g with
          | nil =>
              have hgnil : g = [] := by
                have hlen := (List.perm_insertionSort sortLe g).length_eq
                rw [hg] at hlen
                have : g.length = 0 := by simpa using hlen.symm
                exact List.length_eq_zero.mp this
              simp only [Writer.finish_group, hg, String.data_app]
              rw [Writer.finish_group_items]
              simp only [List.nil_append]
              rcases List.mem_cons.mp hmem with rfl | hmem'
              · rcases hw with ⟨l, t, h⟩ | ⟨g', h, hne⟩
                · exact absurd h (by simp)
                · rw [WriterItem.taggedGroup.injEq] at h
                  exact absurd (h ▸ hgnil) hne
              · exact ih _ false sb ind ⟨wit, hmem', hw⟩
          | cons c cs =>
              obtain ⟨tc, ⟨fo, wl, wi⟩, bc⟩ := c
              simp only [Writer.finish_group, hg, String.data_app]
              exact append_ne_nil_left
                (finish_group_items_cons_ne_nil _ _ _ _ _ _ _ _ _ _)

/-- C4 (amended): tree construction and item appending are total, and
`finish` completes without failure on every tree whose root contains at
least one static item or at least one group with at least one child; the
rendered text is then nonempty, so the leading-byte strip cannot fail. -/
theorem finish_total_spec (w : Writer)
    (h : ∃ it ∈ w.items, (∃ l t, it = WriterItem.staticItem l t) ∨
        ∃ g, it = WriterItem.taggedGroup g ∧ g ≠ []) :
    (Writer.finish w).isSome := by
  obtain ⟨f, l, items⟩ := w
  unfold Writer.finish
  rw [Writer.finish_internal]
  simp only [Writer.items_mk] at h
  cases hd : (Writer.finish_items l true false items 0).2.data with
  | nil => exact absurd hd (finish_items_ne_nil items l true false 0 h)
  | cons c cs => simp

/-- Witness for C4: a root with one static item renders successfully. -/
theorem finish_total_spec_witness :
    (∃ it ∈ (Writer.mk none 1 [WriterItem.staticItem 1 "X"]).items,
      (∃ l t, it = WriterItem.staticItem l t) ∨
        ∃ g, it = WriterItem.taggedGroup g ∧ g ≠ []) ∧
    (Writer.finish (Writer.mk none 1 [WriterItem.staticItem 1 "X"])).isSome :=
  ⟨⟨.staticItem 1 "X", by simp, Or.inl ⟨1, "X", rfl⟩⟩,
   finish_total_spec _ ⟨.staticItem 1 "X", by simp, Or.inl ⟨1, "X", rfl⟩⟩⟩

/-- C4 counterexample: `finish` on an empty writer renders the empty string,
and the byte slice `text[1..]` then fails (a panic in the Rust code, `none`
in the embedding) — even though an empty tree satisfies every ownership
invariant. -/
theorem finish_cex :
    Writer.finish (Writer.mk none 0 []) = none ∧
    (Writer.finish (Writer.mk none 0 [])).isSome = false := by
  constructor <;>
    simp [Writer.finish, Writer.finish_internal.eq_def, Writer.finish_items.eq_def]

/-! ## C1: the first byte stripped by `finish` -/

/-- Appending on the right does not change the head of a nonempty list. -/
theorem head?_append_left {l₁ l₂ : List Char} (h : l₁ ≠ []) :
    (l₁ ++ l₂).head? = l₁.head? := by
  cases l₁ with
  | nil => exact absurd rfl h
  | cons a as => rfl

/-- Reassembling two strings' characters is their concatenation. -/
theorem String.mk_append (s t : String) : String.mk (s.data ++ t.data) = s ++ t := rfl

/-- The separator in front of a static item at indent 0 is a single space or a
single newline (`allow_empty_line` is false on the static-item path, so the
blank-line branch is unreachable). -/
theorem make_whitespace_static_indent0 (cl il : Nat) (sb : Bool) :
    make_whitespace cl il 0 sb false = " " ∨ make_whitespace cl il 0 sb false = "\n" := by
  by_cases h1 : cl ≠ 0 ∧ cl = il ∧ ¬(sb = true ∧ cl = il ∧ cl = u32Max)
  · left
    unfold make_whitespace
    rw [if_pos h1]
  · right
    unfold make_whitespace
    rw [if_neg h1, if_pos (Or.inr (Or.inr rfl)), if_pos (by norm_num [INDENT_WIDTH])]
    decide

/-- C1 (amended): when the root's first item is a static item, the separator
emitted in front of the very first token is a single character, `finish`
strips exactly that character, and the output starts with the first token's
text — hence it begins with a non-whitespace character exactly when the first
static text does. -/
theorem finish_first_static (f : Option String) (ln il : Nat) (t : String)
    (rest : List WriterItem) (ht : t.data ≠ []) :
    ∃ s, Writer.finish ⟨f, ln, .staticItem il t :: rest⟩ = some (t ++ s) ∧
      (t ++ s).data.head? = t.data.head? := by
  refine ⟨(Writer.finish_items il false false rest 0).2, ?_, ?_⟩
  · unfold Writer.finish
    rw [Writer.finish_internal, Writer.finish_items]
    rcases make_whitespace_static_indent0 ln il false with hsep | hsep <;>
      · rw [hsep]
        simp only [String.data_app]
        rfl
  · rw [String.data_app]
    exact head?_append_left ht

/-- Witness for C1 on a concrete static-first tree. -/
theorem finish_first_static_witness :
    (("A2L" : String).data ≠ []) ∧
    ∃ s, Writer.finish ⟨none, 1, [.staticItem 1 "A2L"]⟩ = some ("A2L" ++ s) ∧
      ("A2L" ++ s).data.head? = ("A2L" : String).data.head? :=
  ⟨by decide, finish_first_static none 1 1 "A2L" [] (by decide)⟩

/-- C1 counterexample: when the first rendered element is a block group child
whose line is more than one ahead of the root's line, the first separator is
a blank line (two newlines); `finish` strips only one byte, so the returned
string begins with a newline — a whitespace character. -/
theorem finish_cex_whitespace :
    Writer.finish (Writer.mk none 1
      [WriterItem.taggedGroup
        [("FOO", Writer.mk none 5 [WriterItem.staticItem 5 "X"], true)]]) =
      some "\n/begin FOO X\n/end FOO" ∧
    ("\n/begin FOO X\n/end FOO" : String).data.head? = some '\n' ∧
    '\n'.isWhitespace = true := by
  refine ⟨?_, by decide, by decide⟩
  norm_num [Writer.finish, Writer.finish_internal.eq_def, Writer.finish_items.eq_def,
    Writer.finish_group, Writer.finish_group_items.eq_def, List.insertionSort,
    List.orderedInsert, make_whitespace, u32Size, u32Max, INDENT_WIDTH, base_str,
    String.data_app]

/-! ## C6: the single-child same-line indent heuristic -/

/-- C6 (amended): the compact-indent special case fires only for the very
first group content in its enclosing scope: a group rendered with
`empty_block = true` whose single child shares the current line renders that
child's body at the *same* indent; and whenever the group has two or more
children (`grouplen ≠ 1`), every child — in particular one sharing the
current line — is rendered at `indent + 1`. -/
theorem group_indent_spec :
    (∀ (start : Nat) (tag : String) (item : Writer) (blk : Bool) (ind : Nat),
      item.file = none → item.line = start →
      Writer.finish_group start [(tag, item, blk)] ind true =
        ((if blk then ((Writer.finish_internal item ind).1 + 1) % u32Size
          else (Writer.finish_internal item ind).1),
         make_whitespace start start ind true blk ++
           (if blk then "/begin " else "") ++ tag ++ (Writer.finish_internal item ind).2 ++
           (if blk then
              make_whitespace (Writer.finish_internal item ind).1
                (((Writer.finish_internal item ind).1 + 1) % u32Size) ind false false ++
                "/end " ++ tag
            else "")))
  ∧ (∀ (cl : Nat) (tag : String) (item : Writer) (blk : Bool)
        (rest : List (String × Writer × Bool)) (ind : Nat) (eb : Bool) (gl : Nat)
        (inc : List String),
      item.file = none → gl ≠ 1 → item.line = cl →
      Writer.finish_group_items cl ((tag, item, blk) :: rest) ind eb gl inc =
        ((Writer.finish_group_items
            (if blk then ((Writer.finish_internal item (ind + 1)).1 + 1) % u32Size
             else (Writer.finish_internal item (ind + 1)).1) rest ind eb gl inc).1,
         make_whitespace cl item.line ind true blk ++
           (if blk then "/begin " else "") ++ tag ++
           (Writer.finish_internal item (ind + 1)).2 ++
           (if blk then
              make_whitespace (Writer.finish_internal item (ind + 1)).1
                (((Writer.finish_internal item (ind + 1)).1 + 1) % u32Size) ind false false ++
                "/end " ++ tag
            else "") ++
           (Writer.finish_group_items
            (if blk then ((Writer.finish_internal item (ind + 1)).1 + 1) % u32Size
             else (Writer.finish_internal item (ind + 1)).1) rest ind eb gl inc).2)) := by
  constructor
  · rintro start tag ⟨fo, wl, wi⟩ blk ind hf hl
    simp only [Writer.file_mk] at hf
    simp only [Writer.line_mk] at hl
    subst hf
    subst hl
    cases blk <;>
      simp [Writer.finish_group, Writer.finish_group_items, String.append_assoc]
  · rintro cl tag ⟨fo, wl, wi⟩ blk rest ind eb gl inc hf hgl hl
    simp only [Writer.file_mk] at hf
    simp only [Writer.line_mk] at hl
    subst hf
    subst hl
    cases blk <;>
      simp [Writer.finish_group_items, hgl, String.append_assoc]

/-- Witness for C6 on concrete groups. -/
theorem group_indent_spec_witness :
    ((Writer.mk none 5 [WriterItem.staticItem 6 "Y"]).file = none ∧
      (Writer.mk none 5 [WriterItem.staticItem 6 "Y"]).line = 5 ∧
      Writer.finish_group 5 [("T", Writer.mk none 5 [WriterItem.staticItem 6 "Y"], false)] 0
          true =
        ((Writer.finish_internal (Writer.mk none 5 [WriterItem.staticItem 6 "Y"]) 0).1,
         make_whitespace 5 5 0 true false ++ "T" ++
           (Writer.finish_internal (Writer.mk none 5 [WriterItem.staticItem 6 "Y"]) 0).2 ++ ""))
  ∧ ((2 : Nat) ≠ 1 ∧
      Writer.finish_group_items 5
          [("T", Writer.mk none 5 [WriterItem.staticItem 6 "Y"], false)] 0 false 2 [] =
        ((Writer.finish_group_items
            (Writer.finish_internal (Writer.mk none 5 [WriterItem.staticItem 6 "Y"]) 1).1
            [] 0 false 2 []).1,
         make_whitespace 5 5 0 true false ++ "T" ++
           (Writer.finish_internal (Writer.mk none 5 [WriterItem.staticItem 6 "Y"]) 1).2 ++
           "" ++
           (Writer.finish_group_items
            (Writer.finish_internal (Writer.mk none 5 [WriterItem.staticItem 6 "Y"]) 1).1
            [] 0 false 2 []).2)) :=
  ⟨⟨rfl, rfl, group_indent_spec.1 5 "T" (Writer.mk none 5 [WriterItem.staticItem 6 "Y"])
      false 0 rfl rfl⟩,
   ⟨by decide, group_indent_spec.2 5 "T" (Writer.mk none 5 [WriterItem.staticItem 6 "Y"])
      false [] 0 false 2 [] rfl (by decide) rfl⟩⟩

/-- C6 counterexample: a group whose single child shares the current line but
which is *not* the first content in its scope (`empty_block = false`) renders
the child at `indent + 1`, not at the same indent — the rendered text differs
from the same-indent rendering the claim demands. -/
theorem group_indent_cex :
    (Writer.finish_group 5 [("T", Writer.mk none 5 [WriterItem.staticItem 6 "Y"], false)]
        0 false).2 ≠
      make_whitespace 5 5 0 true false ++ "T" ++
        (Writer.finish_internal (Writer.mk none 5 [WriterItem.staticItem 6 "Y"]) 0).2 := by
  norm_num [Writer.finish_group, Writer.finish_group_items.eq_def,
    Writer.finish_internal.eq_def, Writer.finish_items.eq_def, make_whitespace,
    u32Size, u32Max, INDENT_WIDTH, base_str, String.data_app]
  decide

/-! ## C5: include-directive emission and deduplication -/

/-- Predicate "this child was included from file `p`". -/
def fileIs (p : String) (x : String × Writer × Bool) : Bool := x.2.1.file == some p

/-- `sort_function` on two included children with non-distinguished tags
compares the names of the files they were included from. -/
theorem sort_function_some_some (a b : String × Writer × Bool)
    (hna : ¬(a.1 = "ASAP2_VERSION" ∨ a.1 = "A2ML"))
    (hnb : ¬(b.1 = "ASAP2_VERSION" ∨ b.1 = "A2ML")) (fa fb : String)
    (ha : a.2.1.file = some fa) (hb : b.2.1.file = some fb) :
    Writer.sort_function a b = cmpStr fa fb := by
  rw [sort_function_of_not_dist _ _ hna hnb, ha, hb]

/-- `orderedInsert` passes over a prefix whose elements all sort strictly
before the inserted element. -/
theorem orderedInsert_append_of_none (x : String × Writer × Bool)
    (l₁ l₂ : List (String × Writer × Bool)) (h : ∀ y ∈ l₁, ¬sortLe x y) :
    List.orderedInsert sortLe x (l₁ ++ l₂) = l₁ ++ List.orderedInsert sortLe x l₂ := by
  induction l₁ with
  | nil => rfl
  | cons y ys ih =>
      rw [List.cons_append, List.orderedInsert, if_neg (h y (List.mem_cons_self y ys)),
        ih fun z hz => h z (List.mem_cons_of_mem y hz), List.cons_append]

/-- Sorting a group whose children all come from `"a.inc"` or `"b.inc"` (with
non-distinguished tags) groups the `"a.inc"` children, in order, in front of
the `"b.inc"` children, in order. -/
theorem insertionSort_ab (g : List (String × Writer × Bool))
    (h : ∀ x ∈ g, ¬(x.1 = "ASAP2_VERSION" ∨ x.1 = "A2ML") ∧
      (x.2.1.file = some "a.inc" ∨ x.2.1.file = some "b.inc")) :
    List.insertionSort sortLe g =
      g.filter (fileIs "a.inc") ++ g.filter (fileIs "b.inc") := by
  induction g with
  | nil => rfl
  | cons x xs ih =>
      have hx := h x (List.mem_cons_self x xs)
      have hxs : ∀ y ∈ xs, ¬(y.1 = "ASAP2_VERSION" ∨ y.1 = "A2ML") ∧
          (y.2.1.file = some "a.inc" ∨ y.2.1.file = some "b.inc") :=
        fun y hy => h y (List.mem_cons_of_mem x hy)
      rw [List.insertionSort, ih hxs]
      rcases hx.2 with hA | hB
      · have hxA : fileIs "a.inc" x = true := by simp [fileIs, hA]
        have hxB : fileIs "b.inc" x = false := by simp [fileIs, hA]
        rw [List.filter_cons_of_pos hxA, List.filter_cons_of_neg (by simp [hxB])]
        cases hc : xs.filter (fileIs "a.inc") ++ xs.filter (fileIs "b.inc") with
        | nil =>
            obtain ⟨ha', hb'⟩ := List.append_eq_nil.mp hc
            rw [ha', hb']
            rfl
        | cons y ys =>
            have hy : y ∈ xs := by
              have hmem : y ∈ xs.filter (fileIs "a.inc") ++ xs.filter (fileIs "b.inc") := by
                rw [hc]
                exact List.mem_cons_self y ys
              rcases List.mem_append.mp hmem with h' | h' <;>
                exact List.mem_of_mem_filter h'
            have hyf := hxs y hy
            have hle : sortLe x y := by
              unfold sortLe
              rcases hyf.2 with hyA | hyB
              · rw [sort_function_some_some _ _ hx.1 hyf.1 _ _ hA hyA]
                decide
              · rw [sort_function_some_some _ _ hx.1 hyf.1 _ _ hA hyB]
                decide
            rw [List.orderedInsert, if_pos hle, ← hc, List.cons_append]
      · have hxA : fileIs "a.inc" x = false := by simp [fileIs, hB]
        have hxB : fileIs "b.inc" x = true := by simp [fileIs, hB]
        rw [List.filter_cons_of_neg (by simp [hxA]), List.filter_cons_of_pos hxB]
        rw [orderedInsert_append_of_none x _ _ ?_]
        · congr 1
          cases hfb : xs.filter (fileIs "b.inc") with
          | nil => rfl
          | cons y ys =>
              have hy : y ∈ xs := by
                have hmem : y ∈ xs.filter (fileIs "b.inc") := by
                  rw [hfb]
                  exact List.mem_cons_self y ys
                exact List.mem_of_mem_filter hmem
              have hyB : y.2.1.file = some "b.inc" := by
                have hmem : y ∈ xs.filter (fileIs "b.inc") := by
                  rw [hfb]
                  exact List.mem_cons_self y ys
                have := (List.mem_filter.mp hmem).2
                simpa [fileIs] using this
              have hle : sortLe x y := by
                unfold sortLe
                rw [sort_function_some_some _ _ hx.1 (hxs y hy).1 _ _ hB hyB]
                decide
              rw [List.orderedInsert, if_pos hle]
        · intro y hy
          have hyA : y.2.1.file = some "a.inc" := by
            have := (List.mem_filter.mp hy).2
            simpa [fileIs] using this
          have hymem := List.mem_of_mem_filter hy
          unfold sortLe
          rw [sort_function_some_some _ _ hx.1 (hxs y hymem).1 _ _ hB hyA]
          decide

/-- A child whose origin file was already emitted as an include is skipped
entirely: no output, no cursor change, no set change. -/
theorem finish_group_items_skip (cl ind : Nat) (eb : Bool) (gl : Nat) (inc : List String)
    (tag : String) (item : Writer) (blk : Bool) (rest : List (String × Writer × Bool))
    (p : String) (hf : item.file = some p) (hp : p ∈ inc) :
    Writer.finish_group_items cl ((tag, item, blk) :: rest) ind eb gl inc =
      Writer.finish_group_items cl rest ind eb gl inc := by
  obtain ⟨fo, wl, wi⟩ := item
  simp only [Writer.file_mk] at hf
  subst hf
  rw [Writer.finish_group_items]
  simp only [Writer.file_mk]
  rw [if_pos hp]

/-- A child whose origin file is not yet in the emitted set produces one
`/include` directive, advances the cursor by one, and records the file. -/
theorem finish_group_items_include (cl ind : Nat) (eb : Bool) (gl : Nat)
    (inc : List String) (tag : String) (item : Writer) (blk : Bool)
    (rest : List (String × Writer × Bool)) (p : String)
    (hf : item.file = some p) (hp : p ∉ inc) :
    Writer.finish_group_items cl ((tag, item, blk) :: rest) ind eb gl inc =
      ((Writer.finish_group_items ((cl + 1) % u32Size) rest ind eb gl (p :: inc)).1,
       make_whitespace cl ((cl + 1) % u32Size) ind true true ++ "/include \"" ++ p ++ "\"" ++
         (Writer.finish_group_items ((cl + 1) % u32Size) rest ind eb gl (p :: inc)).2) := by
  obtain ⟨fo, wl, wi⟩ := item
  simp only [Writer.file_mk] at hf
  subst hf
  rw [Writer.finish_group_items]
  simp only [Writer.file_mk]
  rw [if_neg hp]

/-- A run of children whose origin files were all emitted already is skipped
wholesale. -/
theorem finish_group_items_skip_prefix (l₁ l₂ : List (String × Writer × Bool))
    (cl ind : Nat) (eb : Bool) (gl : Nat) (inc : List String)
    (h : ∀ x ∈ l₁, ∃ p, x.2.1.file = some p ∧ p ∈ inc) :
    Writer.finish_group_items cl (l₁ ++ l₂) ind eb gl inc =
      Writer.finish_group_items cl l₂ ind eb gl inc := by
  induction l₁ with
  | nil => rfl
  | cons x xs ih =>
      obtain ⟨tx, wx, bx⟩ := x
      obtain ⟨p, hf, hp⟩ := h _ (List.mem_cons_self _ xs)
      rw [List.cons_append, finish_group_items_skip _ _ _ _ _ _ _ _ _ p hf hp]
      exact ih fun y hy => h y (List.mem_cons_of_mem _ hy)

/-- A trailing run of children whose origin files were all emitted already
contributes nothing at all. -/
theorem finish_group_items_skip_list (l : List (String × Writer × Bool))
    (cl ind : Nat) (eb : Bool) (gl : Nat) (inc : List String)
    (h : ∀ x ∈ l, ∃ p, x.2.1.file = some p ∧ p ∈ inc) :
    Writer.finish_group_items cl l ind eb gl inc = (cl, "") := by
  induction l with
  | nil => rw [Writer.finish_group_items]
  | cons x xs ih =>
      obtain ⟨tx, wx, bx⟩ := x
      obtain ⟨p, hf, hp⟩ := h _ (List.mem_cons_self _ xs)
      rw [finish_group_items_skip _ _ _ _ _ _ _ _ _ p hf hp]
      exact ih fun y hy => h y (List.mem_cons_of_mem _ hy)

/-- C5 (amended): in a group whose children are all included from `"a.inc"`
or `"b.inc"` — in any interleaved, duplicated order — with tags other than
the two distinguished ones, and containing at least one child from each
file, rendering the sorted group emits exactly the two `/include`
directives, `"a.inc"` first, and advances the cursor by two lines.
Additionally (second conjunct), any child whose origin file was already
emitted in this group-render is skipped entirely: no output and no state
change. -/
theorem include_dedup_spec :
    (∀ (g : List (String × Writer × Bool)) (start ind : Nat) (eb : Bool),
      (∀ x ∈ g, ¬(x.1 = "ASAP2_VERSION" ∨ x.1 = "A2ML") ∧
        (x.2.1.file = some "a.inc" ∨ x.2.1.file = some "b.inc")) →
      (∃ x ∈ g, x.2.1.file = some "a.inc") →
      (∃ x ∈ g, x.2.1.file = some "b.inc") →
      start + 2 < u32Size →
      Writer.finish_group start (List.insertionSort sortLe g) ind eb =
        (start + 2,
         make_whitespace start (start + 1) ind true true ++ "/include \"a.inc\"" ++
           make_whitespace (start + 1) (start + 2) ind true true ++ "/include \"b.inc\""))
  ∧ (∀ (cl ind : Nat) (eb : Bool) (gl : Nat) (inc : List String) (tag : String)
        (item : Writer) (blk : Bool) (rest : List (String × Writer × Bool)) (p : String),
      item.file = some p → p ∈ inc →
      Writer.finish_group_items cl ((tag, item, blk) :: rest) ind eb gl inc =
        Writer.finish_group_items cl rest ind eb gl inc) := by
  constructor
  · rintro g start ind eb hall ⟨xa, hxa, hfa⟩ ⟨xb, hxb, hfb⟩ hlt
    rw [insertionSort_ab g hall]
    obtain ⟨ya, yas, hfa'⟩ : ∃ ya yas, g.filter (fileIs "a.inc") = ya :: yas := by
      cases hfa0 : g.filter (fileIs "a.inc") with
      | nil =>
          exfalso
          have : xa ∈ g.filter (fileIs "a.inc") :=
            List.mem_filter.mpr ⟨hxa, by simp [fileIs, hfa]⟩
          rw [hfa0] at this
          exact List.not_mem_nil xa this
      | cons a b => exact ⟨a, b, rfl⟩
    obtain ⟨yb, ybs, hfb'⟩ : ∃ yb ybs, g.filter (fileIs "b.inc") = yb :: ybs := by
      cases hfb0 : g.filter (fileIs "b.inc") with
      | nil =>
          exfalso
          have : xb ∈ g.filter (fileIs "b.inc") :=
            List.mem_filter.mpr ⟨hxb, by simp [fileIs, hfb]⟩
          rw [hfb0] at this
          exact List.not_mem_nil xb this
      | cons a b => exact ⟨a, b, rfl⟩
    have hya : ya.2.1.file = some "a.inc" := by
      have hmem : ya ∈ g.filter (fileIs "a.inc") := by
        rw [hfa']
        exact List.mem_cons_self ya yas
      simpa [fileIs] using (List.mem_filter.mp hmem).2
    have hyas : ∀ x ∈ yas, x.2.1.file = some "a.inc" := by
      intro x hx
      have hmem : x ∈ g.filter (fileIs "a.inc") := by
        rw [hfa']
        exact List.mem_cons_of_mem ya hx
      simpa [fileIs] using (List.mem_filter.mp hmem).2
    have hyb : yb.2.1.file = some "b.inc" := by
      have hmem : yb ∈ g.filter (fileIs "b.inc") := by
        rw [hfb']
        exact List.mem_cons_self yb ybs
      simpa [fileIs] using (List.mem_filter.mp hmem).2
    have hybs : ∀ x ∈ ybs, x.2.1.file = some "b.inc" := by
      intro x hx
      have hmem : x ∈ g.filter (fileIs "b.inc") := by
        rw [hfb']
        exact List.mem_cons_of_mem yb hx
      simpa [fileIs] using (List.mem_filter.mp hmem).2
    rw [hfa', hfb']
    unfold Writer.finish_group
    obtain ⟨ta, wa, ba⟩ := ya
    obtain ⟨tb, wb, bb⟩ := yb
    rw [List.cons_append,
      finish_group_items_include _ _ _ _ _ _ _ _ _ _ hya (List.not_mem_nil _),
      finish_group_items_skip_prefix yas ((tb, wb, bb) :: ybs) _ _ _ _ _
        (fun x hx => ⟨"a.inc", hyas x hx, by simp⟩),
      finish_group_items_include _ _ _ _ _ _ _ _ _ _ hyb (by decide)]
    rw [finish_group_items_skip_list ybs _ _ _ _ _
      (fun x hx => ⟨"b.inc", hybs x hx, by simp⟩)]
    have h1 : (start + 1) % u32Size = start + 1 := Nat.mod_eq_of_lt (by omega)
    rw [h1]
    have h2 : (start + 1 + 1) % u32Size = start + 2 := Nat.mod_eq_of_lt (by omega)
    rw [h2]
    have hlita : ∀ m : String, m ++ "/include \"" ++ "a.inc" ++ "\"" =
        m ++ "/include \"a.inc\"" := by
      intro m
      rw [String.append_assoc, String.append_assoc,
        ← String.append_assoc "/include \"" "a.inc" "\"",
        (by decide : ("/include \"" ++ "a.inc" ++ "\"" : String) = "/include \"a.inc\"")]
    have hlitb : ∀ m : String, m ++ "/include \"" ++ "b.inc" ++ "\"" =
        m ++ "/include \"b.inc\"" := by
      intro m
      rw [String.append_assoc, String.append_assoc,
        ← String.append_assoc "/include \"" "b.inc" "\"",
        (by decide : ("/include \"" ++ "b.inc" ++ "\"" : String) = "/include \"b.inc\"")]
    rw [String.append_empty, hlita, hlitb]
    simp [String.append_assoc]
  · intro cl ind eb gl inc tag item blk rest p hf hp
    exact finish_group_items_skip cl ind eb gl inc tag item blk rest p hf hp

/-- Witness for C5 on a concrete interleaved, duplicated group, plus a
concrete skipped child. -/
theorem include_dedup_spec_witness :
    ((∀ x ∈ [("T1", Writer.mk (some "b.inc") 3 [], false),
        ("T2", Writer.mk (some "a.inc") 7 [], true),
        ("T3", Writer.mk (some "a.inc") 3 [], false),
        ("T4", Writer.mk (some "b.inc") 9 [], true)],
      ¬(x.1 = "ASAP2_VERSION" ∨ x.1 = "A2ML") ∧
        (x.2.1.file = some "a.inc" ∨ x.2.1.file = some "b.inc")) ∧
      (10 : Nat) + 2 < u32Size ∧
      Writer.finish_group 10 (List.insertionSort sortLe
        [("T1", Writer.mk (some "b.inc") 3 [], false),
         ("T2", Writer.mk (some "a.inc") 7 [], true),
         ("T3", Writer.mk (some "a.inc") 3 [], false),
         ("T4", Writer.mk (some "b.inc") 9 [], true)]) 0 true =
        (12, make_whitespace 10 11 0 true true ++ "/include \"a.inc\"" ++
          make_whitespace 11 12 0 true true ++ "/include \"b.inc\""))
  ∧ ((Writer.mk (some "a.inc") 1 []).file = some "a.inc" ∧ "a.inc" ∈ ["a.inc"] ∧
      Writer.finish_group_items 5 [("T", Writer.mk (some "a.inc") 1 [], false)] 0 true 3
          ["a.inc"] =
        Writer.finish_group_items 5 [] 0 true 3 ["a.inc"]) :=
  ⟨⟨by decide, by decide,
    include_dedup_spec.1 _ 10 0 true (by decide)
      ⟨("T2", Writer.mk (some "a.inc") 7 [], true),
        List.Mem.tail _ (List.Mem.head _), rfl⟩
      ⟨("T1", Writer.mk (some "b.inc") 3 [], false), List.Mem.head _, rfl⟩ (by decide)⟩,
   ⟨rfl, by decide,
    include_dedup_spec.2 5 0 true 3 ["a.inc"] "T" (Writer.mk (some "a.inc") 1 []) false []
      "a.inc" rfl (by decide)⟩⟩

/-- C5 counterexample: an included child may carry a distinguished tag, and
then it sorts in front of all other children regardless of its file name —
here the `"b.inc"` include is emitted before the `"a.inc"` include, against
the claimed alphabetical order. -/
theorem include_dedup_cex :
    (Writer.finish_group 0 (List.insertionSort sortLe
        [("A2ML", Writer.mk (some "b.inc") 1 [], false),
         ("T", Writer.mk (some "a.inc") 2 [], false)]) 0 true).2 =
      "\n/include \"b.inc\"\n/include \"a.inc\"" ∧
    (Writer.finish_group 0 (List.insertionSort sortLe
        [("A2ML", Writer.mk (some "b.inc") 1 [], false),
         ("T", Writer.mk (some "a.inc") 2 [], false)]) 0 true).2 ≠
      "\n/include \"a.inc\"\n/include \"b.inc\"" := by
  have hsort : List.insertionSort sortLe
      [("A2ML", Writer.mk (some "b.inc") 1 [], false),
       ("T", Writer.mk (some "a.inc") 2 [], false)] =
      [("A2ML", Writer.mk (some "b.inc") 1 [], false),
       ("T", Writer.mk (some "a.inc") 2 [], false)] := rfl
  rw [hsort]
  norm_num [Writer.finish_group, Writer.finish_group_items.eq_def, make_whitespace,
    u32Size, u32Max, INDENT_WIDTH, base_str, String.data_app]
  have hne : ¬("a.inc" : String) = "b.inc" := by decide
  simp only [if_neg hne]
  exact ⟨by decide, by decide⟩

end A2L
